import Mathlib

/-!
Shallow embedding of the nom-based HTTP parser in `src/src/lib.rs`
(repository `zupzup/rust-parser-example`).

Inputs are modelled as `List Char` (the parser operates on `&str`; all
relevant character classes are ASCII, matching nom's `alpha1`,
`alphanumeric1`, `one_of`, `space0` which are ASCII-only on `&str`).

A nom `IResult<&str, T>` is modelled by `NomResult`:
* `ok rest val` models `Ok((rest, val))`;
* `err pos kind` models `Err(nom::Err::Error(Error::new(pos, kind)))` —
  nom's default `Error` records the remaining input at the failure point
  and an `ErrorKind`; the default `ParseError::append` implementation
  discards the outer kind and keeps the inner error, so `many1`,
  `many_m_n`, `count` propagate the inner error unchanged, and `alt`
  (via `Error::or`) reports the error of the last alternative;
* `panic` models a Rust `unimplemented!` abort (reachable from the
  `From<&str>` conversions for `Method` and `Scheme`).
-/

namespace Http

abbrev Input := List Char

/-- The nom `ErrorKind` values reachable in this source. -/
inductive ErrKind where
  | Tag
  | Alpha
  | AlphaNumeric
  | Digit
  | OneOf
  | Chr
  | Many0
  deriving DecidableEq, Repr

/-- Outcome of running a nom parser: success with remainder, error
(with the remaining input recorded at the failure point), or process
abort via `unimplemented!`. -/
inductive NomResult (α : Type) where
  | ok (rest : Input) (val : α)
  | err (pos : Input) (kind : ErrKind)
  | panic
  deriving DecidableEq, Repr

abbrev ParserM (α : Type) : Type := Input → NomResult α

/-- Sequencing on results: errors and aborts propagate. -/
def NomResult.andThen {α β : Type} (r : NomResult α) (f : Input → α → NomResult β) :
    NomResult β :=
  match r with
  | .ok rest v => f rest v
  | .err e k => .err e k
  | .panic => .panic

/-- nom `bytes::complete::tag`. -/
def tagP (t : Input) : ParserM Input := fun s =>
  if t.isPrefixOf s then .ok (s.drop t.length) t else .err s .Tag

/-- nom `bytes::complete::tag_no_case` (ASCII case-insensitive); on
success the *original-case* slice of the input is returned. -/
def tagNoCase (t : Input) : ParserM Input := fun s =>
  if (s.take t.length).map Char.toLower = t.map Char.toLower ∧ t.length ≤ s.length then
    .ok (s.drop t.length) (s.take t.length)
  else .err s .Tag

/-- nom `split_at_position1_complete`: longest prefix of characters
accepted by `p`; failing with `k` if that prefix is empty. -/
def takeWhile1P (p : Char → Bool) (k : ErrKind) : ParserM Input := fun s =>
  if (s.takeWhile p).isEmpty then .err s k
  else .ok (s.drop (s.takeWhile p).length) (s.takeWhile p)

/-- nom `character::complete::alpha1` (ASCII alphabetic). -/
def alpha1 : ParserM Input := takeWhile1P Char.isAlpha .Alpha

/-- nom `character::complete::alphanumeric1` (ASCII alphanumeric). -/
def alphanumeric1 : ParserM Input := takeWhile1P Char.isAlphanum .AlphaNumeric

/-- The character class of `alphanumerichyphen1` in the source:
`!(char_item == '-') && !char_item.is_alphanum()` is the *failure*
predicate, so a character is accepted iff it is `'-'` or alphanumeric. -/
def isAlnumHyphen (c : Char) : Bool := c == '-' || c.isAlphanum

/-- `alphanumerichyphen1` from the source (src/src/lib.rs lines 115-127). -/
def alphanumerichyphen1 : ParserM Input := takeWhile1P isAlnumHyphen .AlphaNumeric

/-- nom `character::complete::space0` (`' '` and `'\t'`), never fails. -/
def space0 : ParserM Input := fun s =>
  .ok (s.drop ((s.takeWhile fun c => c == ' ' || c == '\t').length))
    (s.takeWhile fun c => c == ' ' || c == '\t')

/-- nom `bytes::complete::take_while`, never fails. -/
def takeWhileP (p : Char → Bool) : ParserM Input := fun s =>
  .ok (s.drop (s.takeWhile p).length) (s.takeWhile p)

/-- nom `character::complete::newline` (the single character `'\n'`). -/
def newlineP : ParserM Char := fun s =>
  match s with
  | [] => .err [] .Chr
  | c :: r => if c = '\n' then .ok r '\n' else .err (c :: r) .Chr

/-- nom `character::complete::one_of`. -/
def oneOfP (cs : Input) : ParserM Char := fun s =>
  match s with
  | [] => .err [] .OneOf
  | c :: r => if cs.contains c then .ok r c else .err (c :: r) .OneOf

/-- nom `bytes::complete::take(0)` as used in `host`: consumes nothing. -/
def take0 : ParserM Input := fun s => .ok s []

/-- nom `sequence::pair` / two-element `tuple`. -/
def pairP {α β : Type} (p : ParserM α) (q : ParserM β) : ParserM (α × β) := fun s =>
  (p s).andThen fun r v => (q r).andThen fun r2 w => .ok r2 (v, w)

/-- nom `sequence::terminated`. -/
def terminatedP {α β : Type} (p : ParserM α) (q : ParserM β) : ParserM α := fun s =>
  (p s).andThen fun r v => (q r).andThen fun r2 _ => .ok r2 v

/-- nom `sequence::preceded`. -/
def precededP {α β : Type} (p : ParserM α) (q : ParserM β) : ParserM β := fun s =>
  (p s).andThen fun r _ => q r

/-- nom `sequence::separated_pair`. -/
def separatedPairP {α β γ : Type} (p : ParserM α) (sep : ParserM γ) (q : ParserM β) :
    ParserM (α × β) := fun s =>
  (p s).andThen fun r v => (sep r).andThen fun r1 _ =>
    (q r1).andThen fun r2 w => .ok r2 (v, w)

/-- nom `sequence::delimited`. -/
def delimitedP {α γ δ : Type} (l : ParserM γ) (p : ParserM α) (r : ParserM δ) :
    ParserM α := fun s =>
  (l s).andThen fun r1 _ => (p r1).andThen fun r2 v =>
    (r r2).andThen fun r3 _ => .ok r3 v

/-- nom `combinator::opt`: a plain error means "absent", with the input
restored (full backtrack). -/
def optP {α : Type} (p : ParserM α) : ParserM (Option α) := fun s =>
  match p s with
  | .ok r v => .ok r (some v)
  | .err _ _ => .ok s none
  | .panic => .panic

/-- nom `branch::alt` for two alternatives; on double failure the error
of the *last* alternative is reported (default `Error::or`). -/
def altP {α : Type} (p q : ParserM α) : ParserM α := fun s =>
  match p s with
  | .err _ _ => q s
  | r => r

/-- nom `multi::many_m_n`: between `mn` and `mx` repetitions; an inner
failure before `mn` successes propagates the inner error unchanged
(default `ParseError::append`). -/
def manyMN {α : Type} (mn mx : Nat) (p : ParserM α) (s : Input) : NomResult (List α) :=
  match mx with
  | 0 => .ok s []
  | mx' + 1 =>
    match p s with
    | .ok r v =>
      match manyMN (mn - 1) mx' p r with
      | .ok r2 vs => .ok r2 (v :: vs)
      | .err e k => .err e k
      | .panic => .panic
    | .err e k => if mn = 0 then .ok s [] else .err e k
    | .panic => .panic

/-- nom `multi::count`: exactly `n` repetitions; an inner failure
propagates the inner error unchanged. -/
def countP {α : Type} (p : ParserM α) (n : Nat) (s : Input) : NomResult (List α) :=
  match n with
  | 0 => .ok s []
  | n' + 1 =>
    (p s).andThen fun r v =>
      match countP p n' r with
      | .ok r2 vs => .ok r2 (v :: vs)
      | .err e k => .err e k
      | .panic => .panic

/-- Fuel-indexed body of nom `multi::many0`: repeat until the first
failure (which is swallowed), with nom's infinite-loop guard (an inner
success that consumes nothing is an error). The fuel is an artifact of
the embedding; `many0P` supplies `s.length + 1`, which is sufficient
whenever the inner parser consumes on success. -/
def many0F {α : Type} (p : ParserM α) (fuel : Nat) (s : Input) : NomResult (List α) :=
  match fuel with
  | 0 => .err s .Many0
  | fuel' + 1 =>
    match p s with
    | .err _ _ => .ok s []
    | .panic => .panic
    | .ok r v =>
      if r.length = s.length then .err s .Many0
      else
        match many0F p fuel' r with
        | .ok r2 vs => .ok r2 (v :: vs)
        | .err e k => .err e k
        | .panic => .panic

/-- nom `multi::many0`. -/
def many0P {α : Type} (p : ParserM α) : ParserM (List α) := fun s =>
  many0F p (s.length + 1) s

/-- nom `multi::many1`: the first repetition is mandatory and its error
propagates; afterwards it behaves like `many0`. -/
def many1P {α : Type} (p : ParserM α) : ParserM (List α) := fun s =>
  (p s).andThen fun r v =>
    match many0F p (r.length + 1) r with
    | .ok r2 vs => .ok r2 (v :: vs)
    | .err e k => .err e k
    | .panic => .panic

/-- The `Method` enumeration (src/src/lib.rs lines 22-32). -/
inductive Method where
  | GET | HEAD | POST | PUT | DELETE | CONNECT | OPTIONS | TRACE
  deriving DecidableEq, Repr

/-- The `Scheme` enumeration (src/src/lib.rs lines 57-61). -/
inductive Scheme where
  | HTTP | HTTPS
  deriving DecidableEq, Repr

/-- The `Host` enumeration (src/src/lib.rs lines 34-39). -/
inductive Host where
  | HOST (name : Input)
  | IP (a b c d : Nat)
  | ASTERISK
  deriving DecidableEq, Repr

/-- `impl From<&str> for Method` (src/src/lib.rs lines 41-55): the
input is uppercased and matched against the eight method tokens;
`none` models the `unimplemented!` abort of the catch-all arm. -/
def Method.fromStr (i : Input) : Option Method :=
  if i.map Char.toUpper = ("GET".toList) then some .GET
  else if i.map Char.toUpper = ("POST".toList) then some .POST
  else if i.map Char.toUpper = ("HEAD".toList) then some .HEAD
  else if i.map Char.toUpper = ("PUT".toList) then some .PUT
  else if i.map Char.toUpper = ("DELETE".toList) then some .DELETE
  else if i.map Char.toUpper = ("CONNECT".toList) then some .CONNECT
  else if i.map Char.toUpper = ("OPTIONS".toList) then some .OPTIONS
  else if i.map Char.toUpper = ("TRACE".toList) then some .TRACE
  else none

/-- `impl From<&str> for Scheme` (src/src/lib.rs lines 63-71): the
input is uppercased and then matched against the *lowercase* literals
`"http"` and `"https"`, exactly as written in the source; `none`
models the `unimplemented!` abort of the catch-all arm. -/
def Scheme.fromStr (i : Input) : Option Scheme :=
  if i.map Char.toUpper = ("http".toList) then some .HTTP
  else if i.map Char.toUpper = ("https".toList) then some .HTTPS
  else none

/-- `scheme` (src/src/lib.rs lines 89-92). -/
def scheme : ParserM Scheme := fun input =>
  match altP (tagNoCase ("HTTP://".toList)) (tagNoCase ("HTTPS://".toList)) input with
  | .ok rest r =>
    match Scheme.fromStr r with
    | some v => .ok rest v
    | none => .panic
  | .err e k => .err e k
  | .panic => .panic

/-- `authority` (src/src/lib.rs lines 94-99). -/
def authority : ParserM (Option (Input × Option Input)) :=
  optP (terminatedP
    (separatedPairP alphanumeric1 (optP (tagP [':'])) (optP alphanumeric1))
    (tagP ['@']))

/-- `"."`-join of the collected labels (Rust `Vec::join(".")`). -/
def joinDots (ls : List Input) : Input := List.intercalate ['.'] ls

/-- The first sequence inside `host`'s `alt`: one-or-more
`{alphanumerichyphen1}"."` repetitions. -/
def labelDot : ParserM Input := terminatedP alphanumerichyphen1 (tagP ['.'])

/-- `host` (src/src/lib.rs lines 101-113): named-host grammar; the
final slice (`alpha1` result, or the empty `take(0)` result) is pushed
onto the label list only when nonempty, then everything is dot-joined. -/
def host : ParserM Host := fun input =>
  match altP
      (pairP (many1P labelDot) alpha1)
      (pairP (manyMN 1 1 alphanumerichyphen1) take0)
      input with
  | .ok rest res =>
    .ok rest (Host.HOST (joinDots (if res.2.isEmpty then res.1 else res.1 ++ [res.2])))
  | .err e k => .err e k
  | .panic => .panic

/-- `one_digit` (src/src/lib.rs lines 190-192). -/
def one_digit : ParserM Char := oneOfP ['0', '1', '2', '3', '4', '5', '6', '7', '8', '9']

/-- `one_to_three_digits` (src/src/lib.rs lines 180-183). -/
def one_to_three_digits : ParserM Input := manyMN 1 3 one_digit

/-- `two_to_four_digits` (src/src/lib.rs lines 185-188). -/
def two_to_four_digits : ParserM Input := manyMN 2 4 one_digit

/-- Value of a decimal digit string. -/
def digitsToNat (ds : Input) : Nat :=
  ds.foldl (fun n c => n * 10 + (c.toNat - ('0').toNat)) 0

/-- Rust `str::parse::<uN>` on a candidate numeric string with
inclusive upper bound `bound` (255 for `u8`, 65535 for `u16`):
fails on an empty string, a non-digit character, or overflow. -/
def parseBounded (bound : Nat) (s : Input) : Option Nat :=
  if s.isEmpty then none
  else if s.all Char.isDigit then
    if digitsToNat s ≤ bound then some (digitsToNat s) else none
  else none

/-- `ip_num` (src/src/lib.rs lines 146-151): 1-3 digits, then
`parse::<u8>`; a failed conversion yields `ErrorKind::Digit` at the
input position *after* the digits. -/
def ip_num : ParserM Nat := fun s =>
  match one_to_three_digits s with
  | .ok r ds =>
    match parseBounded 255 ds with
    | some n => .ok r n
    | none => .err r .Digit
  | .err e k => .err e k
  | .panic => .panic

/-- `ip` (src/src/lib.rs lines 134-144): three `ip_num "."` groups and
a final `ip_num`; the result array is filled positionally. -/
def ip : ParserM Host := fun input =>
  match pairP (countP (terminatedP ip_num (tagP ['.'])) 3) ip_num input with
  | .ok rest res =>
    .ok rest (Host.IP (res.1.getD 0 0) (res.1.getD 1 0) (res.1.getD 2 0) res.2)
  | .err e k => .err e k
  | .panic => .panic

/-- `not_newline` (src/src/lib.rs lines 174-176). -/
def not_newline (c : Char) : Bool := c != '\n'

/-- `spaced_colon` (src/src/lib.rs lines 170-172). -/
def spaced_colon : ParserM Input := delimitedP space0 (tagP [':']) space0

/-- `header` (src/src/lib.rs lines 161-168). -/
def header : ParserM (Input × Input) :=
  separatedPairP alphanumerichyphen1 spaced_colon
    (terminatedP (takeWhileP not_newline) newlineP)

/-- `headers` (src/src/lib.rs lines 157-159). -/
def headers : ParserM (List (Input × Input)) := many0P header

/-- `host_or_ip` (src/src/lib.rs lines 194-196): note the order —
`host` is tried first, `ip` second. -/
def host_or_ip : ParserM Host := altP host ip

/-- `port` (src/src/lib.rs lines 198-205): `":"` then 2-4 digits, then
`parse::<u16>`; a failed conversion yields `ErrorKind::Digit`. -/
def port : ParserM Nat := fun s =>
  match precededP (tagP [':']) two_to_four_digits s with
  | .ok r ds =>
    match parseBounded 65535 ds with
    | some n => .ok r n
    | none => .err r .Digit
  | .err e k => .err e k
  | .panic => .panic

/-- `request_method` (src/src/lib.rs lines 211-222): the `alt` list of
case-insensitive tokens, exactly as in the source — GET, POST, PUT,
DELETE, CONNECT, OPTIONS, TRACE (no HEAD entry). -/
def request_method : ParserM Method := fun input =>
  match altP (tagNoCase ("GET".toList))
      (altP (tagNoCase ("POST".toList))
      (altP (tagNoCase ("PUT".toList))
      (altP (tagNoCase ("DELETE".toList))
      (altP (tagNoCase ("CONNECT".toList))
      (altP (tagNoCase ("OPTIONS".toList))
            (tagNoCase ("TRACE".toList))))))) input with
  | .ok rest r =>
    match Method.fromStr r with
    | some m => .ok rest m
    | none => .panic
  | .err e k => .err e k
  | .panic => .panic

/-! Specification-side definitions, written from the spec's words, used
to state the claims about the named-host and authority grammars and to
compare them with the embedded source functions. -/

/-- The longest leading run of alphanumeric-or-hyphen characters. -/
def labelRun (s : Input) : Input := s.takeWhile isAlnumHyphen

/-- The longest leading run of (ASCII) alphabetic characters. -/
def alphaRun (s : Input) : Input := s.takeWhile Char.isAlpha

/-- Fuel-indexed greedy collector of dot-terminated labels: repeatedly
takes a nonempty alphanumeric-or-hyphen label directly followed by
`'.'`, returning the labels in order together with the rest of the
input. `dottedLabels` supplies sufficient fuel. -/
def dottedLabelsF (fuel : Nat) (s : Input) : List Input × Input :=
  match fuel with
  | 0 => ([], s)
  | fuel' + 1 =>
    if (labelRun s).isEmpty then ([], s)
    else
      match s.drop (labelRun s).length with
      | '.' :: r =>
        ((labelRun s) :: (dottedLabelsF fuel' r).1, (dottedLabelsF fuel' r).2)
      | _ => ([], s)

/-- Greedy sequence of `{label}"."` repetitions at the head of `s`. -/
def dottedLabels (s : Input) : List Input × Input := dottedLabelsF s.length s

/-- Whether a dot-terminated label prefix exists in `s`, i.e. some
nonempty alphanumeric-or-hyphen prefix of `s` is directly followed by
`'.'`. Since alphanumeric-or-hyphen prefixes of `s` are exactly the
prefixes of `labelRun s`, this holds iff `labelRun s` is nonempty and
the character right after it is `'.'`. -/
def hasDotLabelPrefix (s : Input) : Bool :=
  !(labelRun s).isEmpty && ((s.drop (labelRun s).length).head? == some '.')

/-- The named-host grammar exactly as claim C5 words it: one or more
dot-terminated alphanumeric-or-hyphen labels followed by a final
alphabetic-only label; OR, *when no dot-terminated prefix exists*, a
single alphanumeric-or-hyphen label (with nothing more consumed). The
result is the remainder together with the dot-joined labels. -/
def hostClaimC5 (s : Input) : Option (Input × Input) :=
  if (dottedLabels s).1 ≠ [] ∧ alphaRun (dottedLabels s).2 ≠ [] then
    some ((dottedLabels s).2.drop (alphaRun (dottedLabels s).2).length,
      joinDots ((dottedLabels s).1 ++ [alphaRun (dottedLabels s).2]))
  else if ¬ hasDotLabelPrefix s ∧ labelRun s ≠ [] then
    some (s.drop (labelRun s).length, labelRun s)
  else none

/-- The named-host grammar with the amended fallback condition: the
single-label alternative applies whenever the first alternative does
not match (ordered choice), not only when no dot-terminated prefix
exists. -/
def hostWords (s : Input) : Option (Input × Input) :=
  if (dottedLabels s).1 ≠ [] ∧ alphaRun (dottedLabels s).2 ≠ [] then
    some ((dottedLabels s).2.drop (alphaRun (dottedLabels s).2).length,
      joinDots ((dottedLabels s).1 ++ [alphaRun (dottedLabels s).2]))
  else if labelRun s ≠ [] then
    some (s.drop (labelRun s).length, labelRun s)
  else none

/-- The authority grammar exactly as claim C7 words it:
`username[:password]@` where the colon-and-password is one optional
unit — a colon must be followed by a nonempty alphanumeric password. -/
def authorityClaimC7 (s : Input) : Option (Input × (Input × Option Input)) :=
  if (s.takeWhile Char.isAlphanum).isEmpty then none
  else
    match s.drop (s.takeWhile Char.isAlphanum).length with
    | ':' :: r1 =>
      if (r1.takeWhile Char.isAlphanum).isEmpty then none
      else
        match r1.drop (r1.takeWhile Char.isAlphanum).length with
        | '@' :: r2 =>
          some (r2, (s.takeWhile Char.isAlphanum, some (r1.takeWhile Char.isAlphanum)))
        | _ => none
    | '@' :: r2 => some (r2, (s.takeWhile Char.isAlphanum, none))
    | _ => none

/-- The authority grammar with the amended wording: an alphanumeric
username, optionally followed by `':'` and then an *optional*
alphanumeric password, terminated by `'@'` (so `user:@rest` parses,
with no password). -/
def authorityWords (s : Input) : Option (Input × (Input × Option Input)) :=
  if (s.takeWhile Char.isAlphanum).isEmpty then none
  else
    match s.drop (s.takeWhile Char.isAlphanum).length with
    | ':' :: r1 =>
      match r1.drop (r1.takeWhile Char.isAlphanum).length with
      | '@' :: r2 =>
        some (r2, (s.takeWhile Char.isAlphanum,
          if (r1.takeWhile Char.isAlphanum).isEmpty then none
          else some (r1.takeWhile Char.isAlphanum)))
      | _ => none
    | '@' :: r2 => some (r2, (s.takeWhile Char.isAlphanum, none))
    | _ => none

section Scratch

example : request_method (("GET 1234").toList) = .ok ((" 1234").toList) Method.GET := by
  decide

example : request_method (("1234").toList) = .err (("1234").toList) .Tag := by decide

example : request_method (("PUT POST").toList) = .ok ((" POST").toList) Method.PUT := by
  decide

example : request_method (("HEAD /x").toList) = .err (("HEAD /x").toList) .Tag := by
  decide

example : scheme (("http://example.org").toList) = .panic := by decide

example : authority (("username:password@zupzup.org").toList)
    = .ok (("zupzup.org").toList) (some (("username").toList, some (("password").toList))) := by
  decide

example : authority (("username@zupzup.org").toList)
    = .ok (("zupzup.org").toList) (some (("username").toList, none)) := by decide

example : authority (("zupzup.org").toList) = .ok (("zupzup.org").toList) none := by decide

example : authority ((":zupzup.org").toList) = .ok ((":zupzup.org").toList) none := by decide

example : authority (("username:passwordzupzup.org").toList)
    = .ok (("username:passwordzupzup.org").toList) none := by decide

example : authority (("@zupzup.org").toList) = .ok (("@zupzup.org").toList) none := by decide

example : authority (("username:@zupzup.org").toList)
    = .ok (("zupzup.org").toList) (some (("username").toList, none)) := by decide

example : authorityClaimC7 (("username:@zupzup.org").toList) = none := by decide

example : host (("localhost:8080").toList)
    = .ok ((":8080").toList) (Host.HOST (("localhost").toList)) := by decide

example : host (("example.org:8080").toList)
    = .ok ((":8080").toList) (Host.HOST (("example.org").toList)) := by decide

example : host (("some-subsite.example.org:8080").toList)
    = .ok ((":8080").toList) (Host.HOST (("some-subsite.example.org").toList)) := by decide

example : host (("example.123").toList)
    = .ok ((".123").toList) (Host.HOST (("example").toList)) := by decide

example : hostClaimC5 (("example.123").toList) = none := by decide

example : hostWords (("example.123").toList)
    = some ((".123").toList, ("example").toList) := by decide

example : host (("$$$.com").toList) = .err (("$$$.com").toList) .AlphaNumeric := by decide

example : host ((".com").toList) = .err ((".com").toList) .AlphaNumeric := by decide

example : ip (("192.168.0.1:8080").toList)
    = .ok ((":8080").toList) (Host.IP 192 168 0 1) := by decide

example : ip (("0.0.0.0:8080").toList) = .ok ((":8080").toList) (Host.IP 0 0 0 0) := by
  decide

example : ip (("1924.168.0.1:8080").toList)
    = .err (("4.168.0.1:8080").toList) .Tag := by decide

example : ip (("192.168.0000.144:8080").toList)
    = .err (("0.144:8080").toList) .Tag := by decide

example : ip (("192.168.0.1444:8080").toList)
    = .ok (("4:8080").toList) (Host.IP 192 168 0 144) := by decide

example : ip (("192.168.0:8080").toList) = .err ((":8080").toList) .Tag := by decide

example : ip (("999.168.0.0:8080").toList)
    = .err ((".168.0.0:8080").toList) .Digit := by decide

example : host_or_ip (("192.168.0.1:8080").toList)
    = .ok ((".168.0.1:8080").toList) (Host.HOST (("192").toList)) := by decide

example : header (("Content-Type: application/json\nabc").toList)
    = .ok (("abc").toList) ((("Content-Type").toList, ("application/json").toList)) := by
  decide

example : header (("Content-Type  :          application/json\nabc").toList)
    = .ok (("abc").toList) ((("Content-Type").toList, ("application/json").toList)) := by
  decide

example : headers (("Content-Type: application/json\nHost: x\nbody").toList)
    = .ok (("body").toList)
      [(("Content-Type").toList, ("application/json").toList),
       (("Host").toList, ("x").toList)] := by decide

example : port ((":8080rest").toList) = .ok (("rest").toList) 8080 := by decide

end Scratch

/-! Helper lemmas. -/

/-- `takeWhile` of an all-accepted block followed by a rejected
character takes exactly the block. -/
theorem takeWhile_append_cons {p : Char → Bool} :
    ∀ (l₁ : Input) (c : Char) (l₂ : Input), (∀ x ∈ l₁, p x = true) → p c = false →
      (l₁ ++ c :: l₂).takeWhile p = l₁ := by
  intro l₁ c l₂ h₁ hc
  induction l₁ with
  | nil => simp [List.takeWhile_cons, hc]
  | cons a t ih =>
    have ha : p a = true := h₁ a (by simp)
    simp only [List.cons_append, List.takeWhile_cons, ha, if_true]
    rw [ih (fun x hx => h₁ x (by simp [hx]))]

/-- Whatever remains after dropping the `takeWhile` run starts with a
rejected character (or is empty): its own `takeWhile` run is empty. -/
theorem takeWhile_drop_takeWhile (p : Char → Bool) :
    ∀ s : Input, (s.drop (s.takeWhile p).length).takeWhile p = [] := by
  intro s
  induction s with
  | nil => simp
  | cons a t ih =>
    by_cases ha : p a
    · simpa [List.takeWhile_cons, ha] using ih
    · simp [List.takeWhile_cons, ha]

/-- `tagP` with a single-character tag on a cons cell. -/
theorem tagP_cons (t c : Char) (r : Input) :
    tagP [t] (c :: r) = if t = c then .ok r [t] else .err (c :: r) .Tag := by
  by_cases h : t = c <;> simp [tagP, List.isPrefixOf, h]

/-- `tagP` with a single-character tag fails on the empty input. -/
theorem tagP_nil (t : Char) : tagP [t] [] = .err [] .Tag := by
  simp [tagP, List.isPrefixOf]

/-- `authority` computes exactly the (amended-)words grammar
`authorityWords`, and degrades to "absent" (`none`, input restored)
whenever that grammar does not match. -/
theorem authority_eq_words (s : Input) :
    authority s =
      (match authorityWords s with
       | some (r, v) => NomResult.ok r (some v)
       | none => NomResult.ok s none) := by
  by_cases hu : (s.takeWhile Char.isAlphanum).isEmpty
  · have hword : authorityWords s = none := by simp [authorityWords, hu]
    have hcode : authority s = NomResult.ok s none := by
      simp [authority, optP, terminatedP, separatedPairP, alphanumeric1, takeWhile1P,
        NomResult.andThen, hu]
    rw [hcode, hword]
  · rcases hr : s.drop (s.takeWhile Char.isAlphanum).length with _ | ⟨c, r1⟩
    · have hword : authorityWords s = none := by simp [authorityWords, hu, hr]
      have hcode : authority s = NomResult.ok s none := by
        simp [authority, optP, terminatedP, separatedPairP, alphanumeric1, takeWhile1P,
          NomResult.andThen, hu, hr, tagP_nil]
      rw [hcode, hword]
    · by_cases hc : c = ':'
      · subst hc
        by_cases hp : (r1.takeWhile Char.isAlphanum).isEmpty
        · have hp0 : r1.takeWhile Char.isAlphanum = ([] : Input) := by
            rwa [List.isEmpty_iff] at hp
          rcases r1 with _ | ⟨d, r2⟩
          · have hword : authorityWords s = none := by simp [authorityWords, hu, hr]
            have hcode : authority s = NomResult.ok s none := by
              simp [authority, optP, terminatedP, separatedPairP, alphanumeric1,
                takeWhile1P, NomResult.andThen, hu, hr, tagP_cons, tagP_nil]
            rw [hcode, hword]
          · by_cases hd : d = '@'
            · subst hd
              have hword : authorityWords s
                  = some (r2, (s.takeWhile Char.isAlphanum, none)) := by
                simp [authorityWords, hu, hr, hp0]
              have hcode : authority s
                  = NomResult.ok r2 (some (s.takeWhile Char.isAlphanum, none)) := by
                simp [authority, optP, terminatedP, separatedPairP, alphanumeric1,
                  takeWhile1P, NomResult.andThen, hu, hr, tagP_cons, hp0]
              rw [hcode, hword]
            · have hd' : ('@' : Char) ≠ d := fun h => hd h.symm
              have hword : authorityWords s = none := by
                simp only [authorityWords, hr, if_neg hu, hp0, List.length_nil,
                  List.drop_zero]
                split
                · next heq => rw [List.cons.injEq] at heq; exact absurd heq.1 hd
                · rfl
              have hcode : authority s = NomResult.ok s none := by
                simp [authority, optP, terminatedP, separatedPairP, alphanumeric1,
                  takeWhile1P, NomResult.andThen, hu, hr, tagP_cons, hp0, hd']
              rw [hcode, hword]
        · rcases hr1 : r1.drop (r1.takeWhile Char.isAlphanum).length with _ | ⟨d, r2⟩
          · have hword : authorityWords s = none := by
              simp [authorityWords, hu, hr, hr1]
            have hcode : authority s = NomResult.ok s none := by
              simp [authority, optP, terminatedP, separatedPairP, alphanumeric1,
                takeWhile1P, NomResult.andThen, hu, hr, tagP_cons, tagP_nil, hp, hr1]
            rw [hcode, hword]
          · by_cases hd : d = '@'
            · subst hd
              have hword : authorityWords s
                  = some (r2, (s.takeWhile Char.isAlphanum,
                      some (r1.takeWhile Char.isAlphanum))) := by
                simp [authorityWords, hu, hr, hr1, hp]
              have hcode : authority s
                  = NomResult.ok r2 (some (s.takeWhile Char.isAlphanum,
                      some (r1.takeWhile Char.isAlphanum))) := by
                simp [authority, optP, terminatedP, separatedPairP, alphanumeric1,
                  takeWhile1P, NomResult.andThen, hu, hr, tagP_cons, hp, hr1]
              rw [hcode, hword]
            · have hd' : ('@' : Char) ≠ d := fun h => hd h.symm
              have hword : authorityWords s = none := by
                simp only [authorityWords, hr, if_neg hu, hr1]
                split
                · next heq => rw [List.cons.injEq] at heq; exact absurd heq.1 hd
                · rfl
              have hcode : authority s = NomResult.ok s none := by
                simp [authority, optP, terminatedP, separatedPairP, alphanumeric1,
                  takeWhile1P, NomResult.andThen, hu, hr, tagP_cons, hp, hr1, hd']
              rw [hcode, hword]
      · have hw : (c :: r1).takeWhile Char.isAlphanum = ([] : Input) := by
          have h := takeWhile_drop_takeWhile Char.isAlphanum s
          rw [hr] at h; exact h
        have hc' : (':' : Char) ≠ c := fun h => hc h.symm
        by_cases hc2 : c = '@'
        · subst hc2
          have hword : authorityWords s
              = some (r1, (s.takeWhile Char.isAlphanum, none)) := by
            simp [authorityWords, hu, hr]
          have hcode : authority s
              = NomResult.ok r1 (some (s.takeWhile Char.isAlphanum, none)) := by
            simp [authority, optP, terminatedP, separatedPairP, alphanumeric1,
              takeWhile1P, NomResult.andThen, hu, hr, tagP_cons, hw, hc']
          rw [hcode, hword]
        · have hc2' : ('@' : Char) ≠ c := fun h => hc2 h.symm
          have hcode : authority s = NomResult.ok s none := by
            simp [authority, optP, terminatedP, separatedPairP, alphanumeric1,
              takeWhile1P, NomResult.andThen, hu, hr, tagP_cons, hw, hc', hc2']
          have hword : authorityWords s = none := by
            simp only [authorityWords, hr, if_neg hu]
            split
            · next heq => rw [List.cons.injEq] at heq; exact absurd heq.1 hc
            · next heq => rw [List.cons.injEq] at heq; exact absurd heq.1 hc2
            · rfl
          rw [hcode, hword]

/-- Claim C7 counterexample: the claim's grammar treats `":password"`
as one optional unit, so `"username:@zupzup.org"` (colon present,
password absent) falls into the "every other case" clause and should
yield `None` with the input unchanged — but the source's `authority`
accepts it, returning `Some(("username", None))` with remainder
`"zupzup.org"` (the colon and the password are independently optional
in the code). -/
theorem c7_counterexample :
    authorityClaimC7 (("username:@zupzup.org").toList) = none ∧
    authority (("username:@zupzup.org").toList)
      = .ok (("zupzup.org").toList) (some ((("username").toList), none)) := by
  refine ⟨by decide, by decide⟩

/-- Claim C7 as amended: `authority` is total and fully backtracking —
for every input it equals the rendering of the words-grammar
`authorityWords` (an alphanumeric username, optionally followed by
`':'` and an *optional* alphanumeric password, terminated by `'@'`),
returning `Some` of the pair with the text after `'@'` as remainder
when the grammar matches, and `None` with the original input unchanged
in every other case (never an error); e.g. parsing `"zupzup.org"`
yields `(None, "zupzup.org")`. -/
theorem c7_authority_total_backtracking :
    (∀ s : Input, authority s =
      (match authorityWords s with
       | some (r, v) => NomResult.ok r (some v)
       | none => NomResult.ok s none)) ∧
    authority (("zupzup.org").toList) = .ok (("zupzup.org").toList) none :=
  ⟨authority_eq_words, by decide⟩

/-- Claim C6: for every input whose first character is neither
alphanumeric nor a hyphen, `host` fails with the invalid-character-class
error (`ErrorKind::AlphaNumeric`) and consumes nothing: the error is
reported at the original input. -/
theorem c6_host_bad_first_char (c : Char) (s : Input)
    (h : isAlnumHyphen c = false) :
    host (c :: s) = .err (c :: s) .AlphaNumeric := by
  have hrun : (c :: s).takeWhile isAlnumHyphen = [] := by
    simp [List.takeWhile_cons, h]
  simp [host, altP, pairP, many1P, manyMN, labelDot, terminatedP,
    alphanumerichyphen1, takeWhile1P, NomResult.andThen, hrun]

/-- Witness for C6 at the spec's own inputs `".com"` and `"$$$.com"`. -/
theorem c6_witness :
    host ('.' :: (("com").toList)) = .err ('.' :: (("com").toList)) .AlphaNumeric ∧
    host ('$' :: (("$$.com").toList)) = .err ('$' :: (("$$.com").toList)) .AlphaNumeric :=
  ⟨c6_host_bad_first_char '.' (("com").toList) (by decide),
   c6_host_bad_first_char '$' (("$$.com").toList) (by decide)⟩

/-- Claim C1 (code bug): the `alt` list in `request_method` omits HEAD,
so `"HEAD /x"` is rejected with a Tag error (input unconsumed) even
though the `Method` enumeration and its `From<&str>` conversion both
support HEAD; the other seven tokens parse as the claim states
(e.g. `"get /x"`). -/
theorem c1_method_head_missing :
    request_method (("HEAD /x").toList) = .err (("HEAD /x").toList) .Tag ∧
    Method.fromStr (("HEAD").toList) = some Method.HEAD ∧
    request_method (("get /x").toList) = .ok ((" /x").toList) Method.GET := by
  refine ⟨by decide, by decide, by decide⟩

/-- Claim C2 (code bug): on every input that begins with `"http://"`
or `"https://"` (any case), `scheme` reaches the `unimplemented!` abort:
the matched slice (e.g. `"http://"`) is uppercased to `"HTTP://"` and
compared against the lowercase literals `"http"`/`"https"`, which can
never match. -/
theorem c2_scheme_always_panics :
    scheme (("http://example.org").toList) = .panic ∧
    scheme (("HTTPS://example.org").toList) = .panic ∧
    scheme (("HtTp://x").toList) = .panic := by
  refine ⟨by decide, by decide, by decide⟩

/-- Claim C3 counterexample: `host_or_ip` is `alt((host, ip))`, so the
named-host alternative is tried *first* and `"192.168.0.1:8080"`
parses to `HOST("192")` with remainder `".168.0.1:8080"` — not to the
IPv4 variant with remainder `":8080"` as the claim states. -/
theorem c3_counterexample :
    host_or_ip (("192.168.0.1:8080").toList)
      = .ok ((".168.0.1:8080").toList) (Host.HOST (("192").toList)) ∧
    host_or_ip (("192.168.0.1:8080").toList)
      ≠ .ok ((":8080").toList) (Host.IP 192 168 0 1) := by
  refine ⟨by decide, by decide⟩

/-- Claim C3 as amended: `host_or_ip` tries the named-host alternative
before the IPv4 alternative, so whenever `host` succeeds its result is
returned unchanged; on the dotted-quad input `"192.168.0.1:8080"` this
yields the named variant `HOST("192")` with remainder `".168.0.1:8080"`. -/
theorem c3_host_tried_first :
    (∀ (s r : Input) (v : Host), host s = .ok r v → host_or_ip s = .ok r v) ∧
    host_or_ip (("192.168.0.1:8080").toList)
      = .ok ((".168.0.1:8080").toList) (Host.HOST (("192").toList)) := by
  constructor
  · intro s r v h
    simp [host_or_ip, altP, h]
  · decide

/-- Witness for C3's amended theorem at `"192.168.0.1:8080"`. -/
theorem c3_witness :
    host_or_ip (("192.168.0.1:8080").toList)
      = .ok ((".168.0.1:8080").toList) (Host.HOST (("192").toList)) :=
  c3_host_tried_first.1 (("192.168.0.1:8080").toList) ((".168.0.1:8080").toList)
    (Host.HOST (("192").toList)) (by decide)

/-- Claim C4: octet parsing enforces the 255 bound and the 3-digit cap.
`ip "999.168.0.0"` fails at the first octet with the numeric-range
error (`ErrorKind::Digit`, reported after the consumed digits), while
`ip "192.168.0.1444"` succeeds with final octet 144 and the fourth
digit `"4"` left unconsumed. -/
theorem c4_octet_bound_and_cap :
    ip (("999.168.0.0").toList) = .err ((".168.0.0").toList) .Digit ∧
    ip (("192.168.0.1444").toList) = .ok (("4").toList) (Host.IP 192 168 0 144) := by
  refine ⟨by decide, by decide⟩

/-- Claim C5 counterexample: the claim's own grammar (fallback only
"when no dot-terminated prefix exists") rejects `"example.123"` — a
dot-terminated label prefix `"example."` exists but no final
alphabetic-only label follows — yet the source's `host` accepts it via
the single-label fallback, returning `HOST("example")` with remainder
`".123"` (as the source's own test asserts). -/
theorem c5_counterexample :
    hostClaimC5 (("example.123").toList) = none ∧
    host (("example.123").toList)
      = .ok ((".123").toList) (Host.HOST (("example").toList)) := by
  refine ⟨by decide, by decide⟩

/-- Claim C10: a header value may be empty — for every nonempty
alphanumeric-or-hyphen name and every rest, `name ++ ":\n" ++ rest`
parses as the header `(name, "")` with `rest` unconsumed. -/
theorem c10_empty_header_value (name rest : Input)
    (hne : name ≠ []) (hok : ∀ c ∈ name, isAlnumHyphen c = true) :
    header (name ++ ':' :: '\n' :: rest) = .ok rest (name, []) := by
  have hname : (name ++ ':' :: '\n' :: rest).takeWhile isAlnumHyphen = name :=
    takeWhile_append_cons name ':' ('\n' :: rest) hok (by decide)
  have hdrop : (name ++ ':' :: '\n' :: rest).drop name.length = ':' :: '\n' :: rest := by
    simp [List.drop_left]
  simp [header, separatedPairP, terminatedP, alphanumerichyphen1, takeWhile1P,
    NomResult.andThen, hname, hne, hdrop, spaced_colon, delimitedP, space0,
    List.takeWhile_cons, tagP, List.isPrefixOf, takeWhileP, not_newline, newlineP]

/-- Witness for C10 at `name = "X-Empty"`, `rest = "body"`. -/
theorem c10_witness :
    header ((("X-Empty").toList) ++ ':' :: '\n' :: (("body").toList))
      = .ok (("body").toList) ((("X-Empty").toList), []) :=
  c10_empty_header_value (("X-Empty").toList) (("body").toList) (by decide)
    (by decide)

/-- `one_digit` succeeds only by consuming one decimal digit. -/
theorem one_digit_ok (s r : Input) (c : Char) (h : one_digit s = .ok r c) :
    c.isDigit = true ∧ c.toNat - ('0').toNat ≤ 9 := by
  rcases s with _ | ⟨a, t⟩
  · simp [one_digit, oneOfP] at h
  · simp only [one_digit, oneOfP] at h
    split at h
    · rename_i hmem
      cases h
      have hm : c ∈ (['0', '1', '2', '3', '4', '5', '6', '7', '8', '9'] : Input) := by
        simpa using hmem
      fin_cases hm <;> exact ⟨by decide, by decide⟩
    · cases h

/-- `one_digit` fails only with `ErrorKind::OneOf`. -/
theorem one_digit_err (s e : Input) (k : ErrKind) (h : one_digit s = .err e k) :
    k = .OneOf := by
  rcases s with _ | ⟨a, t⟩
  · simp only [one_digit, oneOfP] at h
    cases h
    rfl
  · simp only [one_digit, oneOfP] at h
    split at h
    · cases h
    · cases h
      rfl

/-- On success, `manyMN` returns at most `mx` items. -/
theorem manyMN_len {α : Type} (p : ParserM α) :
    ∀ (mx mn : Nat) (s r : Input) (vs : List α),
      manyMN mn mx p s = .ok r vs → vs.length ≤ mx := by
  intro mx
  induction mx with
  | zero =>
    intro mn s r vs h
    simp only [manyMN] at h
    cases h
    simp
  | succ mx' ih =>
    intro mn s r vs h
    simp only [manyMN] at h
    cases hps : p s with
    | ok r1 v =>
      simp only [hps] at h
      cases hrec : manyMN (mn - 1) mx' p r1 with
      | ok r2 vs2 =>
        simp only [hrec, NomResult.ok.injEq] at h
        have hstep := ih (mn - 1) r1 r2 vs2 hrec
        have hvs : vs.length = vs2.length + 1 := by rw [← h.2]; simp
        omega
      | err e k => simp only [hrec] at h; cases h
      | panic => simp only [hrec] at h; cases h
    | err e k =>
      simp only [hps] at h
      by_cases hmn : mn = 0
      · rw [if_pos hmn] at h; cases h; simp
      · rw [if_neg hmn] at h; cases h
    | panic => simp only [hps] at h; cases h

/-- On success, `manyMN` returns at least `mn` items (when `mn ≤ mx`). -/
theorem manyMN_min {α : Type} (p : ParserM α) :
    ∀ (mx mn : Nat) (s r : Input) (vs : List α), mn ≤ mx →
      manyMN mn mx p s = .ok r vs → mn ≤ vs.length := by
  intro mx
  induction mx with
  | zero =>
    intro mn s r vs hle h
    omega
  | succ mx' ih =>
    intro mn s r vs hle h
    simp only [manyMN] at h
    cases hps : p s with
    | ok r1 v =>
      simp only [hps] at h
      cases hrec : manyMN (mn - 1) mx' p r1 with
      | ok r2 vs2 =>
        simp only [hrec, NomResult.ok.injEq] at h
        have hstep := ih (mn - 1) r1 r2 vs2 (by omega) hrec
        have hvs : vs.length = vs2.length + 1 := by rw [← h.2]; simp
        omega
      | err e k => simp only [hrec] at h; cases h
      | panic => simp only [hrec] at h; cases h
    | err e k =>
      simp only [hps] at h
      by_cases hmn : mn = 0
      · rw [if_pos hmn] at h; cases h; omega
      · rw [if_neg hmn] at h; cases h
    | panic => simp only [hps] at h; cases h

/-- On success, every item returned by `manyMN` was produced by a
successful run of the inner parser. -/
theorem manyMN_all {α : Type} (pred : α → Prop) (p : ParserM α)
    (hp : ∀ s r v, p s = .ok r v → pred v) :
    ∀ (mx mn : Nat) (s r : Input) (vs : List α),
      manyMN mn mx p s = .ok r vs → ∀ v ∈ vs, pred v := by
  intro mx
  induction mx with
  | zero =>
    intro mn s r vs h
    simp only [manyMN] at h
    cases h
    simp
  | succ mx' ih =>
    intro mn s r vs h
    simp only [manyMN] at h
    cases hps : p s with
    | ok r1 v =>
      simp only [hps] at h
      cases hrec : manyMN (mn - 1) mx' p r1 with
      | ok r2 vs2 =>
        simp only [hrec, NomResult.ok.injEq] at h
        intro w hw
        rw [← h.2] at hw
        rcases List.mem_cons.mp hw with rfl | hw2
        · exact hp s r1 w hps
        · exact ih (mn - 1) r1 r2 vs2 hrec w hw2
      | err e k => simp only [hrec] at h; cases h
      | panic => simp only [hrec] at h; cases h
    | err e k =>
      simp only [hps] at h
      by_cases hmn : mn = 0
      · rw [if_pos hmn] at h; cases h; simp
      · rw [if_neg hmn] at h; cases h
    | panic => simp only [hps] at h; cases h

/-- A failing `manyMN` over `one_digit` reports `ErrorKind::OneOf`. -/
theorem manyMN_one_digit_err :
    ∀ (mx mn : Nat) (s e : Input) (k : ErrKind),
      manyMN mn mx one_digit s = .err e k → k = .OneOf := by
  intro mx
  induction mx with
  | zero =>
    intro mn s e k h
    simp only [manyMN] at h
    cases h
  | succ mx' ih =>
    intro mn s e k h
    simp only [manyMN] at h
    cases hps : one_digit s with
    | ok r1 v =>
      simp only [hps] at h
      cases hrec : manyMN (mn - 1) mx' one_digit r1 with
      | ok r2 vs2 => simp only [hrec] at h; cases h
      | err e2 k2 =>
        simp only [hrec] at h
        cases h
        exact ih (mn - 1) r1 e k hrec
      | panic => simp only [hrec] at h; cases h
    | err e2 k2 =>
      simp only [hps] at h
      by_cases hmn : mn = 0
      · rw [if_pos hmn] at h; cases h
      · rw [if_neg hmn] at h
        cases h
        exact one_digit_err s e k hps
    | panic => simp only [hps] at h; cases h

/-- `tagP` fails only with `ErrorKind::Tag`. -/
theorem tagP_err (t s e : Input) (k : ErrKind) (h : tagP t s = .err e k) :
    k = .Tag := by
  simp only [tagP] at h
  split at h
  · cases h
  · cases h; rfl

/-- Accumulator bound for the digit fold. -/
theorem foldl_digits_lt :
    ∀ (ds : Input) (n : Nat), (∀ c ∈ ds, c.toNat - ('0').toNat ≤ 9) →
      ds.foldl (fun n c => n * 10 + (c.toNat - ('0').toNat)) n
        < (n + 1) * 10 ^ ds.length := by
  intro ds
  induction ds with
  | nil => intro n _; simp
  | cons c t ih =>
    intro n hall
    have hc : c.toNat - ('0').toNat ≤ 9 := hall c (by simp)
    have hrec := ih (n * 10 + (c.toNat - ('0').toNat))
      (fun x hx => hall x (by simp [hx]))
    have hmul : (n * 10 + (c.toNat - ('0').toNat) + 1) * 10 ^ t.length
        ≤ ((n + 1) * 10) * 10 ^ t.length := by
      apply Nat.mul_le_mul_right
      omega
    simp only [List.foldl_cons, List.length_cons, pow_succ]
    calc t.foldl (fun n c => n * 10 + (c.toNat - ('0').toNat))
          (n * 10 + (c.toNat - ('0').toNat))
        < (n * 10 + (c.toNat - ('0').toNat) + 1) * 10 ^ t.length := hrec
      _ ≤ ((n + 1) * 10) * 10 ^ t.length := hmul
      _ = (n + 1) * (10 ^ t.length * 10) := by ring

/-- The value of a digit string is below `10 ^ length`. -/
theorem digitsToNat_lt (ds : Input) (h : ∀ c ∈ ds, c.toNat - ('0').toNat ≤ 9) :
    digitsToNat ds < 10 ^ ds.length := by
  have := foldl_digits_lt ds 0 h
  simpa [digitsToNat] using this

/-- When the digit phase of `port` succeeds, its value is at most 9999
and the `u16` conversion succeeds. -/
theorem two_to_four_ok (s r ds : Input) (h : two_to_four_digits s = .ok r ds) :
    parseBounded 65535 ds = some (digitsToNat ds) ∧ digitsToNat ds ≤ 9999 := by
  have hlen : ds.length ≤ 4 := manyMN_len one_digit 4 2 s r ds h
  have hmin : 2 ≤ ds.length := manyMN_min one_digit 4 2 s r ds (by omega) h
  have hall : ∀ c ∈ ds, c.isDigit = true ∧ c.toNat - ('0').toNat ≤ 9 :=
    manyMN_all _ one_digit (fun s1 r1 v hv => one_digit_ok s1 r1 v hv) 4 2 s r ds h
  have hval : digitsToNat ds < 10 ^ ds.length :=
    digitsToNat_lt ds (fun c hc => (hall c hc).2)
  have hpow : (10 : Nat) ^ ds.length ≤ 10 ^ 4 :=
    Nat.pow_le_pow_right (by omega) hlen
  have h4 : (10 : Nat) ^ 4 = 10000 := by norm_num
  have hbound : digitsToNat ds ≤ 9999 := by omega
  refine ⟨?_, hbound⟩
  have hne : ds.isEmpty = false := by
    cases ds with
    | nil => simp at hmin
    | cons a t => simp
  have hdig : ds.all Char.isDigit = true :=
    List.all_eq_true.mpr (fun c hc => (hall c hc).1)
  simp [parseBounded, hne, hdig]
  omega

/-- Claim C9: whenever the port parser's digit phase succeeds (`":"`
followed by 2-4 digits), the numeric value is at most 9999, so the
unsigned-16-bit conversion never overflows and `port`'s
numeric-conversion error branch (`ErrorKind::Digit`) is unreachable:
`port` fails only with a Tag or OneOf error. -/
theorem c9_port_no_overflow :
    (∀ (s r : Input) (n : Nat), port s = .ok r n → n ≤ 9999) ∧
    (∀ (s r : Input), port s ≠ .err r .Digit) := by
  have hpre : ∀ s r1 ds, precededP (tagP [':']) two_to_four_digits s = .ok r1 ds →
      two_to_four_digits (s.drop 1) = .ok r1 ds := by
    intro s r1 ds h
    simp only [precededP, NomResult.andThen] at h
    cases htag : tagP [':'] s with
    | ok r0 v =>
      simp only [htag] at h
      have : r0 = s.drop 1 := by
        simp only [tagP] at htag
        split at htag
        · cases htag; rfl
        · cases htag
      rwa [this] at h
    | err e k => rw [htag] at h; cases h
    | panic => rw [htag] at h; cases h
  constructor
  · intro s r n h
    simp only [port] at h
    cases hps : precededP (tagP [':']) two_to_four_digits s with
    | ok r1 ds =>
      simp only [hps] at h
      obtain ⟨hsome, hb⟩ := two_to_four_ok (s.drop 1) r1 ds (hpre s r1 ds hps)
      rw [hsome] at h
      cases h
      exact hb
    | err e k => simp only [hps] at h; cases h
    | panic => simp only [hps] at h; cases h
  · intro s r h
    simp only [port] at h
    cases hps : precededP (tagP [':']) two_to_four_digits s with
    | ok r1 ds =>
      simp only [hps] at h
      obtain ⟨hsome, _⟩ := two_to_four_ok (s.drop 1) r1 ds (hpre s r1 ds hps)
      rw [hsome] at h
      cases h
    | err e k =>
      simp only [hps] at h
      cases h
      simp only [precededP, NomResult.andThen] at hps
      cases htag : tagP [':'] s with
      | ok r0 v =>
        simp only [htag] at hps
        have := manyMN_one_digit_err 4 2 r0 r .Digit hps
        cases this
      | err e2 k2 =>
        simp only [htag] at hps
        cases hps
        have := tagP_err [':'] s r .Digit htag
        cases this
      | panic => simp only [htag] at hps; cases hps
    | panic => simp only [hps] at h; cases h

/-- Witness for C9 at `":8080"`: the parsed port value obeys the bound. -/
theorem c9_witness : 8080 ≤ 9999 :=
  c9_port_no_overflow.1 ((":8080").toList) [] 8080 (by decide)

/-- The `takeWhile` run never exceeds the input length. -/
theorem takeWhile_length_le_self (p : Char → Bool) (l : Input) :
    (l.takeWhile p).length ≤ l.length := by
  induction l with
  | nil => simp
  | cons a t ih =>
    by_cases h : p a
    · simp only [List.takeWhile_cons, h, if_true, List.length_cons]
      omega
    · simp [List.takeWhile_cons, h]

/-- One-step unfolding of `many0F` at a successor fuel value. -/
theorem many0F_succ {α : Type} (p : ParserM α) (fuel : Nat) (s : Input) :
    many0F p (fuel + 1) s =
      (match p s with
       | .err _ _ => .ok s []
       | .panic => .panic
       | .ok r v =>
         if r.length = s.length then .err s .Many0
         else
           match many0F p fuel r with
           | .ok r2 vs => .ok r2 (v :: vs)
           | .err e k => .err e k
           | .panic => .panic) := rfl

/-- `header` either succeeds and strictly consumes input, or fails. -/
theorem header_cases (s : Input) :
    (∃ r h, header s = .ok r h ∧ r.length < s.length) ∨
    (∃ e k, header s = .err e k) := by
  by_cases h1 : (s.takeWhile isAlnumHyphen).isEmpty
  · right
    exact ⟨s, .AlphaNumeric, by
      simp [header, separatedPairP, alphanumerichyphen1, takeWhile1P,
        NomResult.andThen, h1]⟩
  · have hn1 : 1 ≤ (s.takeWhile isAlnumHyphen).length := by
      rcases hsw : s.takeWhile isAlnumHyphen with _ | ⟨a, t⟩
      · rw [hsw] at h1; simp at h1
      · simp
    have hn2 : (s.takeWhile isAlnumHyphen).length ≤ s.length :=
      takeWhile_length_le_self isAlnumHyphen s
    obtain ⟨r1, hr1⟩ : ∃ r1, s.drop (s.takeWhile isAlnumHyphen).length = r1 := ⟨_, rfl⟩
    have hl1 : r1.length + 1 ≤ s.length := by
      rw [← hr1]; simp only [List.length_drop]; omega
    obtain ⟨r2, hr2⟩ :
        ∃ r2, r1.drop ((r1.takeWhile fun c => c == ' ' || c == '\t').length) = r2 :=
      ⟨_, rfl⟩
    have hl2 : r2.length ≤ r1.length := by
      rw [← hr2]; simp only [List.length_drop]; omega
    cases htag : tagP [':'] r2 with
    | ok r3 v =>
      have hl3 : r3.length + 1 ≤ r2.length := by
        simp only [tagP] at htag
        split at htag
        · rename_i hpre
          rcases r2 with _ | ⟨b, t2⟩
          · simp at hpre
          · cases htag; simp
        · cases htag
      obtain ⟨r4, hr4⟩ :
          ∃ r4, r3.drop ((r3.takeWhile fun c => c == ' ' || c == '\t').length) = r4 :=
        ⟨_, rfl⟩
      have hl4 : r4.length ≤ r3.length := by
        rw [← hr4]; simp only [List.length_drop]; omega
      obtain ⟨r5, hr5⟩ : ∃ r5, r4.drop ((r4.takeWhile not_newline).length) = r5 :=
        ⟨_, rfl⟩
      have hl5 : r5.length ≤ r4.length := by
        rw [← hr5]; simp only [List.length_drop]; omega
      rcases r5 with _ | ⟨c, t5⟩
      · right
        refine ⟨[], .Chr, ?_⟩
        simp [header, separatedPairP, NomResult.andThen, alphanumerichyphen1,
          takeWhile1P, h1, hr1, spaced_colon, delimitedP, space0, hr2, htag,
          hr4, terminatedP, takeWhileP, hr5, newlineP]
      · by_cases hc : c = '\n'
        · subst hc
          left
          refine ⟨t5, (s.takeWhile isAlnumHyphen, r4.takeWhile not_newline), ?_, ?_⟩
          · simp [header, separatedPairP, NomResult.andThen, alphanumerichyphen1,
              takeWhile1P, h1, hr1, spaced_colon, delimitedP, space0, hr2, htag,
              hr4, terminatedP, takeWhileP, hr5, newlineP]
          · simp only [List.length_cons] at hl5
            omega
        · right
          refine ⟨c :: t5, .Chr, ?_⟩
          simp [header, separatedPairP, NomResult.andThen, alphanumerichyphen1,
            takeWhile1P, h1, hr1, spaced_colon, delimitedP, space0, hr2, htag,
            hr4, terminatedP, takeWhileP, hr5, newlineP, hc]
    | err e k =>
      right
      exact ⟨e, k, by
        simp [header, separatedPairP, NomResult.andThen, alphanumerichyphen1,
          takeWhile1P, h1, hr1, spaced_colon, delimitedP, space0, hr2, htag]⟩
    | panic =>
      exfalso
      simp only [tagP] at htag
      split at htag <;> cases htag

/-- With sufficient fuel, `many0F header` always succeeds. -/
theorem many0F_header_ok :
    ∀ (n : Nat) (s : Input) (fuel : Nat), s.length ≤ n → s.length < fuel →
      ∃ r hs, many0F header fuel s = .ok r hs := by
  intro n
  induction n with
  | zero =>
    intro s fuel h0 hf
    have hs : s = [] := List.length_eq_zero.mp (Nat.le_zero.mp h0)
    subst hs
    rcases fuel with _ | f
    · omega
    · rcases header_cases [] with ⟨r, h, hok, hlen⟩ | ⟨e, k, herr⟩
      · simp at hlen
      · exact ⟨[], [], by simp [many0F, herr]⟩
  | succ n ih =>
    intro s fuel h0 hf
    rcases fuel with _ | f
    · omega
    · rcases header_cases s with ⟨r, h, hok, hlen⟩ | ⟨e, k, herr⟩
      · have hne : ¬ (r.length = s.length) := by omega
        obtain ⟨r2, hs2, hrec⟩ := ih r f (by omega) (by omega)
        exact ⟨r2, h :: hs2, by simp [many0F, hok, hne, hrec]⟩
      · exact ⟨s, [], by simp [many0F, herr]⟩

/-- `many0F header` does not depend on the fuel, as long as the fuel
exceeds the input length. -/
theorem many0F_header_irrel :
    ∀ (n : Nat) (s : Input) (f1 f2 : Nat), s.length ≤ n → s.length < f1 →
      s.length < f2 → many0F header f1 s = many0F header f2 s := by
  intro n
  induction n with
  | zero =>
    intro s f1 f2 h0 hf1 hf2
    have hs : s = [] := List.length_eq_zero.mp (Nat.le_zero.mp h0)
    subst hs
    rcases f1 with _ | g1
    · omega
    rcases f2 with _ | g2
    · omega
    rcases header_cases [] with ⟨r, h, hok, hlen⟩ | ⟨e, k, herr⟩
    · simp at hlen
    · simp [many0F, herr]
  | succ n ih =>
    intro s f1 f2 h0 hf1 hf2
    rcases f1 with _ | g1
    · omega
    rcases f2 with _ | g2
    · omega
    rcases header_cases s with ⟨r, h, hok, hlen⟩ | ⟨e, k, herr⟩
    · have hne : ¬ (r.length = s.length) := by omega
      have hstep := ih r g1 g2 (by omega) (by omega) (by omega)
      simp [many0F, hok, hne, hstep]
    · simp [many0F, herr]

/-- The greedy step of `headers` on a matching leading header line. -/
theorem headers_step_ok (s r : Input) (h : Input × Input) (r2 : Input)
    (hs : List (Input × Input)) (h1 : header s = .ok r h)
    (h2 : headers r = .ok r2 hs) : headers s = .ok r2 (h :: hs) := by
  have hlen : r.length < s.length := by
    rcases header_cases s with ⟨r', h', hok, hlen'⟩ | ⟨e, k, herr⟩
    · rw [h1] at hok
      simp only [NomResult.ok.injEq] at hok
      rw [← hok.1] at hlen'
      exact hlen'
    · rw [h1] at herr; cases herr
  have hne : ¬ (r.length = s.length) := by omega
  have hirr : many0F header s.length r = many0F header (r.length + 1) r :=
    many0F_header_irrel r.length r s.length (r.length + 1) (le_refl _)
      (by omega) (by omega)
  simp only [headers, many0P] at h2 ⊢
  rw [many0F_succ]
  simp only [h1]
  rw [if_neg hne, hirr, h2]

/-- `headers` stops (successfully, consuming nothing) at the first
line that does not match the header grammar. -/
theorem headers_step_err (s e : Input) (k : ErrKind) (h1 : header s = .err e k) :
    headers s = .ok s [] := by
  simp only [headers, many0P]
  simp [many0F, h1]

/-- Claim C8: the header-block parser never fails; it greedily consumes
matching header lines (name, optional spaces, `':'`, optional spaces,
value up to the line feed, line feed), preserving the encounter order
and duplicates, treating extra spacing around `':'` identically to
none, and stops at the first non-matching line, returning it as the
unconsumed remainder (e.g. two headers then `"body"`). -/
theorem c8_headers_block :
    (∀ s : Input, ∃ r hs, headers s = .ok r hs) ∧
    (∀ (s r : Input) (h : Input × Input) (r2 : Input) (hs : List (Input × Input)),
      header s = .ok r h → headers r = .ok r2 hs → headers s = .ok r2 (h :: hs)) ∧
    (∀ (s e : Input) (k : ErrKind), header s = .err e k → headers s = .ok s []) ∧
    headers (("Content-Type: application/json\nHost: x\nbody").toList)
      = .ok (("body").toList)
        [(("Content-Type").toList, ("application/json").toList),
         (("Host").toList, ("x").toList)] ∧
    header (("Content-Type  :   application/json\nxyz").toList)
      = header (("Content-Type: application/json\nxyz").toList) ∧
    headers (("A: 1\nA: 2\nrest").toList)
      = .ok (("rest").toList)
        [(("A").toList, ("1").toList), (("A").toList, ("2").toList)] :=
  ⟨fun s => many0F_header_ok s.length s (s.length + 1) (le_refl _) (by omega),
   headers_step_ok, headers_step_err, by decide, by decide, by decide⟩

/-- `labelDot` (one `{label}"."` repetition): takes the label run and
then requires a dot, failing without the dot. -/
theorem labelDot_eq (s : Input) :
    labelDot s =
      (if (labelRun s).isEmpty then .err s .AlphaNumeric
       else match s.drop (labelRun s).length with
         | '.' :: r => .ok r (labelRun s)
         | t => .err t .Tag) := by
  by_cases he : (labelRun s).isEmpty
  · rw [if_pos he]
    have he' : (s.takeWhile isAlnumHyphen).isEmpty = true := by
      simpa [labelRun] using he
    simp [labelDot, terminatedP, alphanumerichyphen1, takeWhile1P, NomResult.andThen,
      he']
  · rw [if_neg he]
    have he' : ¬ (s.takeWhile isAlnumHyphen).isEmpty = true := by
      simpa [labelRun] using he
    rcases hd : s.drop (labelRun s).length with _ | ⟨c, r⟩
    · have hd' : s.drop (s.takeWhile isAlnumHyphen).length = [] := by
        simpa [labelRun] using hd
      simp [labelDot, terminatedP, alphanumerichyphen1, takeWhile1P,
        NomResult.andThen, he', hd', tagP_nil]
    · have hd' : s.drop (s.takeWhile isAlnumHyphen).length = c :: r := by
        simpa [labelRun] using hd
      by_cases hc : c = '.'
      · subst hc
        simp [labelDot, terminatedP, alphanumerichyphen1, takeWhile1P,
          NomResult.andThen, he', hd', tagP_cons, labelRun]
      · have hc' : ('.' : Char) ≠ c := fun h => hc h.symm
        have hcode : labelDot s = .err (c :: r) .Tag := by
          simp [labelDot, terminatedP, alphanumerichyphen1, takeWhile1P,
            NomResult.andThen, he', hd', tagP_cons, hc']
        rw [hcode]
        split
        · next heq =>
            exfalso
            apply hc
            rw [List.cons.injEq] at heq
            exact heq.1
        · rfl

/-- `dottedLabelsF` ignores the fuel when the label run is empty. -/
theorem dottedLabelsF_empty (s : Input) (h : (labelRun s).isEmpty) (f : Nat) :
    dottedLabelsF f s = ([], s) := by
  cases f with
  | zero => rfl
  | succ f' => simp [dottedLabelsF, h]

/-- `dottedLabelsF` at a successor fuel when no dot follows the label. -/
theorem dottedLabelsF_nodot (s : Input) (f : Nat)
    (he : ¬ (labelRun s).isEmpty = true)
    (hd : ∀ r, s.drop (labelRun s).length ≠ '.' :: r) :
    dottedLabelsF (f + 1) s = ([], s) := by
  simp only [dottedLabelsF]
  rw [if_neg he]

/-- The label run is nonempty and bounded by the input length (facts
used repeatedly below). -/
theorem labelRun_facts (s : Input) (he : ¬ (labelRun s).isEmpty = true) :
    1 ≤ (labelRun s).length ∧ (labelRun s).length ≤ s.length := by
  constructor
  · rcases hlr : labelRun s with _ | ⟨a, t⟩
    · rw [hlr] at he; simp at he
    · simp
  · simpa [labelRun] using takeWhile_length_le_self isAlnumHyphen s

/-- `dottedLabelsF` does not depend on the fuel, as long as the fuel is
at least the input length. -/
theorem dottedLabelsF_irrel :
    ∀ (n : Nat) (s : Input) (f1 f2 : Nat), s.length ≤ n → s.length ≤ f1 →
      s.length ≤ f2 → dottedLabelsF f1 s = dottedLabelsF f2 s := by
  intro n
  induction n with
  | zero =>
    intro s f1 f2 h0 hf1 hf2
    have hs : s = [] := List.length_eq_zero.mp (Nat.le_zero.mp h0)
    subst hs
    rw [dottedLabelsF_empty [] (by simp [labelRun]) f1,
      dottedLabelsF_empty [] (by simp [labelRun]) f2]
  | succ n ih =>
    intro s f1 f2 h0 hf1 hf2
    by_cases he : (labelRun s).isEmpty
    · rw [dottedLabelsF_empty s he f1, dottedLabelsF_empty s he f2]
    · obtain ⟨hL1, hLle⟩ := labelRun_facts s he
      rcases f1 with _ | g1
      · omega
      rcases f2 with _ | g2
      · omega
      rcases hd : s.drop (labelRun s).length with _ | ⟨c, r⟩
      · rw [dottedLabelsF_nodot s g1 he (by rw [hd]; intro r h; cases h),
          dottedLabelsF_nodot s g2 he (by rw [hd]; intro r h; cases h)]
      · by_cases hc : c = '.'
        · subst hc
          have hdl : (s.drop (labelRun s).length).length
              = s.length - (labelRun s).length := by simp
          rw [hd] at hdl
          simp only [List.length_cons] at hdl
          have hrec := ih r g1 g2 (by omega) (by omega) (by omega)
          simp only [dottedLabelsF]
          rw [if_neg he, if_neg he, hd]
          simp [hrec]
        · have hnd : ∀ r', s.drop (labelRun s).length ≠ '.' :: r' := by
            rw [hd]
            intro r' hx
            rw [List.cons.injEq] at hx
            exact hc (hx.1.symm ▸ rfl)
          rw [dottedLabelsF_nodot s g1 he hnd, dottedLabelsF_nodot s g2 he hnd]

/-- One-step unfolding of the greedy dotted-label collector. -/
theorem dottedLabels_step (s : Input) :
    dottedLabels s =
      (if (labelRun s).isEmpty then ([], s)
       else match s.drop (labelRun s).length with
         | '.' :: r => ((labelRun s) :: (dottedLabels r).1, (dottedLabels r).2)
         | _ => ([], s)) := by
  by_cases he : (labelRun s).isEmpty
  · rw [if_pos he]
    exact dottedLabelsF_empty s he s.length
  · rw [if_neg he]
    obtain ⟨hL1, hLle⟩ := labelRun_facts s he
    obtain ⟨m, hm⟩ : ∃ m, s.length = m + 1 := ⟨s.length - 1, by omega⟩
    rcases hd : s.drop (labelRun s).length with _ | ⟨c, r⟩
    · have := dottedLabelsF_nodot s m he (by rw [hd]; intro r h; cases h)
      rw [← hm] at this
      rw [show dottedLabels s = dottedLabelsF s.length s from rfl, this]
    · by_cases hc : c = '.'
      · subst hc
        have hdl : (s.drop (labelRun s).length).length
            = s.length - (labelRun s).length := by simp
        rw [hd] at hdl
        simp only [List.length_cons] at hdl
        have hirr := dottedLabelsF_irrel r.length r m r.length (le_refl _)
          (by omega) (le_refl _)
        rw [show dottedLabels s = dottedLabelsF s.length s from rfl, hm]
        simp only [dottedLabelsF]
        rw [if_neg he, hd]
        simp [dottedLabels, hirr]
      · have hnd : ∀ r', s.drop (labelRun s).length ≠ '.' :: r' := by
          rw [hd]
          intro r' hx
          rw [List.cons.injEq] at hx
          exact hc (hx.1.symm ▸ rfl)
        have := dottedLabelsF_nodot s m he hnd
        rw [← hm] at this
        rw [show dottedLabels s = dottedLabelsF s.length s from rfl, this]
        split
        · next heq =>
            exfalso
            apply hc
            rw [List.cons.injEq] at heq
            exact heq.1
        · rfl

/-- With sufficient fuel, `many0F labelDot` computes exactly the greedy
dotted-label collector, and never fails. -/
theorem many0F_labelDot :
    ∀ (n : Nat) (s : Input) (fuel : Nat), s.length ≤ n → s.length < fuel →
      many0F labelDot fuel s = .ok (dottedLabels s).2 (dottedLabels s).1 := by
  intro n
  induction n with
  | zero =>
    intro s fuel h0 hf
    have hs : s = [] := List.length_eq_zero.mp (Nat.le_zero.mp h0)
    subst hs
    rcases fuel with _ | f
    · omega
    · have hld : labelDot [] = .err [] .AlphaNumeric := by
        rw [labelDot_eq]; simp [labelRun]
      have hdl : dottedLabels [] = ([], []) :=
        dottedLabelsF_empty [] (by simp [labelRun]) 0
      simp [many0F, hld, hdl]
  | succ n ih =>
    intro s fuel h0 hf
    rcases fuel with _ | f
    · omega
    by_cases he : (labelRun s).isEmpty
    · have hld : labelDot s = .err s .AlphaNumeric := by
        rw [labelDot_eq]; simp [he]
      have hdl : dottedLabels s = ([], s) := dottedLabelsF_empty s he s.length
      simp [many0F, hld, hdl]
    · obtain ⟨hL1, hLle⟩ := labelRun_facts s he
      rcases hd : s.drop (labelRun s).length with _ | ⟨c, r⟩
      · have hld : labelDot s = .err [] .Tag := by
          rw [labelDot_eq, if_neg he, hd]
        have hdl : dottedLabels s = ([], s) := by
          rw [dottedLabels_step, if_neg he, hd]
        simp [many0F, hld, hdl]
      · by_cases hc : c = '.'
        · subst hc
          have hld : labelDot s = .ok r (labelRun s) := by
            rw [labelDot_eq, if_neg he, hd]
            rfl
          have hdl : (s.drop (labelRun s).length).length
              = s.length - (labelRun s).length := by simp
          rw [hd] at hdl
          simp only [List.length_cons] at hdl
          have hne : ¬ (r.length = s.length) := by omega
          have hrec := ih r f (by omega) (by omega)
          have hstep : dottedLabels s
              = ((labelRun s) :: (dottedLabels r).1, (dottedLabels r).2) := by
            rw [dottedLabels_step, if_neg he, hd]
            rfl
          rw [hstep]
          simp [many0F, hld, hne, hrec]
        · have hld : labelDot s = .err (c :: r) .Tag := by
            rw [labelDot_eq, if_neg he, hd]
            split
            · next heq =>
                exfalso
                apply hc
                rw [List.cons.injEq] at heq
                exact heq.1
            · rfl
          have hdl : dottedLabels s = ([], s) := by
            rw [dottedLabels_step, if_neg he, hd]
            split
            · next heq =>
                exfalso
                apply hc
                rw [List.cons.injEq] at heq
                exact heq.1
            · rfl
          simp [many0F, hld, hdl]

/-- `many1P labelDot` on an input whose greedy collector is nonempty. -/
theorem many1_labelDot_ok (s l : Input) (ls : List Input) (rest : Input)
    (h : dottedLabels s = (l :: ls, rest)) :
    many1P labelDot s = .ok rest (l :: ls) := by
  rw [dottedLabels_step] at h
  by_cases he : (labelRun s).isEmpty
  · rw [if_pos he] at h
    cases h
  · rw [if_neg he] at h
    rcases hd : s.drop (labelRun s).length with _ | ⟨c, r⟩
    · rw [hd] at h; cases h
    · rw [hd] at h
      by_cases hc : c = '.'
      · subst hc
        simp only [Prod.mk.injEq, List.cons.injEq] at h
        obtain ⟨⟨hl, hls⟩, hrest⟩ := h
        have hld : labelDot s = .ok r (labelRun s) := by
          rw [labelDot_eq, if_neg he, hd]
          rfl
        obtain ⟨hL1, hLle⟩ := labelRun_facts s he
        have hdl : (s.drop (labelRun s).length).length
            = s.length - (labelRun s).length := by simp
        rw [hd] at hdl
        simp only [List.length_cons] at hdl
        have hrec := many0F_labelDot r.length r (r.length + 1) (le_refl _)
          (by omega)
        simp [many1P, NomResult.andThen, hld, hrec, hl, hls, hrest]
      · exfalso
        revert h
        split
        · next heq => rw [List.cons.injEq] at heq
                      exact fun _ => hc (heq.1.symm ▸ rfl)
        · intro h; cases h

/-- `many1P labelDot` fails when the greedy collector is empty. -/
theorem many1_labelDot_err (s : Input) (h : (dottedLabels s).1 = []) :
    ∃ e k, many1P labelDot s = .err e k := by
  by_cases he : (labelRun s).isEmpty
  · have hld : labelDot s = .err s .AlphaNumeric := by
      rw [labelDot_eq]; simp [he]
    exact ⟨s, .AlphaNumeric, by simp [many1P, NomResult.andThen, hld]⟩
  · rcases hd : s.drop (labelRun s).length with _ | ⟨c, r⟩
    · have hld : labelDot s = .err [] .Tag := by
        rw [labelDot_eq, if_neg he, hd]
      exact ⟨[], .Tag, by simp [many1P, NomResult.andThen, hld]⟩
    · by_cases hc : c = '.'
      · subst hc
        have hstep : dottedLabels s
            = ((labelRun s) :: (dottedLabels r).1, (dottedLabels r).2) := by
          rw [dottedLabels_step, if_neg he, hd]
          rfl
        rw [hstep] at h
        cases h
      · have hld : labelDot s = .err (c :: r) .Tag := by
          rw [labelDot_eq, if_neg he, hd]
          split
          · next heq => rw [List.cons.injEq] at heq
                        exact absurd heq.1.symm (fun h2 => hc (h2.symm ▸ rfl))
          · rfl
        exact ⟨c :: r, .Tag, by simp [many1P, NomResult.andThen, hld]⟩

/-- `many_m_n 1 1` runs the inner parser exactly once. -/
theorem manyMN11 {α : Type} (q : ParserM α) (s : Input) :
    manyMN 1 1 q s =
      (match q s with
       | .ok r v => .ok r [v]
       | .err e k => .err e k
       | .panic => .panic) := by
  cases hq : q s <;> simp [manyMN, hq]

/-- `"."`-joining a single label is the label itself. -/
theorem joinDots_singleton (x : Input) : joinDots [x] = x := by
  simp [joinDots, List.intercalate]

/-- `host` computes exactly the named-host words-grammar `hostWords`
(ordered choice: greedy dotted labels plus a final alphabetic-only
label, else a single leading label), failing with the character-class
error at the untouched input exactly when the words-grammar rejects. -/
theorem host_eq_words (s : Input) :
    host s =
      (match hostWords s with
       | some (r, name) => NomResult.ok r (Host.HOST name)
       | none => NomResult.err s .AlphaNumeric) := by
  by_cases hA : (labelRun s).isEmpty
  · have hA0 : labelRun s = ([] : Input) := List.isEmpty_iff.mp hA
    have hdl : dottedLabels s = ([], s) := dottedLabelsF_empty s hA s.length
    have hword : hostWords s = none := by
      simp [hostWords, hdl, hA0]
    have hA' : ¬ (s.takeWhile isAlnumHyphen).isEmpty = false := by
      simp only [labelRun] at hA
      simp [hA]
    have hcode : host s = .err s .AlphaNumeric := by
      have hA2 : (s.takeWhile isAlnumHyphen).isEmpty = true := by
        simpa [labelRun] using hA
      simp [host, altP, pairP, many1P, manyMN, labelDot, terminatedP,
        alphanumerichyphen1, takeWhile1P, NomResult.andThen, hA2]
    rw [hcode, hword]
  · have hA0 : ¬ (labelRun s = ([] : Input)) := by
      simpa [List.isEmpty_iff] using hA
    have hA2 : ¬ (s.takeWhile isAlnumHyphen).isEmpty = true := by
      simpa [labelRun] using hA
    have hanh : alphanumerichyphen1 s
        = .ok (s.drop (labelRun s).length) (labelRun s) := by
      simp [alphanumerichyphen1, takeWhile1P, hA2, labelRun]
    rcases hdl : dottedLabels s with ⟨ls, rest⟩
    rcases ls with _ | ⟨l, ls'⟩
    · obtain ⟨e, k, hm1⟩ := many1_labelDot_err s (by rw [hdl])
      have hword : hostWords s = some (s.drop (labelRun s).length, labelRun s) := by
        simp [hostWords, hdl, hA0]
      have hcode : host s
          = .ok (s.drop (labelRun s).length) (Host.HOST (labelRun s)) := by
        simp [host, altP, pairP, NomResult.andThen, hm1, manyMN11, hanh, take0,
          joinDots_singleton]
      rw [hcode, hword]
    · have hm1 := many1_labelDot_ok s l ls' rest hdl
      by_cases hB : (alphaRun rest).isEmpty
      · have hB0 : alphaRun rest = ([] : Input) := List.isEmpty_iff.mp hB
        have halpha : alpha1 rest = .err rest .Alpha := by
          have : (rest.takeWhile Char.isAlpha).isEmpty = true := by
            simpa [alphaRun] using hB
          simp [alpha1, takeWhile1P, this]
        have hword : hostWords s = some (s.drop (labelRun s).length, labelRun s) := by
          simp [hostWords, hdl, hA0, hB0]
        have hcode : host s
            = .ok (s.drop (labelRun s).length) (Host.HOST (labelRun s)) := by
          simp [host, altP, pairP, NomResult.andThen, hm1, halpha, manyMN11,
            hanh, take0, joinDots_singleton]
        rw [hcode, hword]
      · have hB0 : ¬ (alphaRun rest = ([] : Input)) := by
          simpa [List.isEmpty_iff] using hB
        have hB2 : ¬ (rest.takeWhile Char.isAlpha).isEmpty = true := by
          simpa [alphaRun] using hB
        have halpha : alpha1 rest
            = .ok (rest.drop (alphaRun rest).length) (alphaRun rest) := by
          simp [alpha1, takeWhile1P, hB2, alphaRun]
        have hword : hostWords s
            = some (rest.drop (alphaRun rest).length,
                joinDots ((l :: ls') ++ [alphaRun rest])) := by
          simp [hostWords, hdl, hB0]
        have hcode : host s
            = .ok (rest.drop (alphaRun rest).length)
                (Host.HOST (joinDots ((l :: ls') ++ [alphaRun rest]))) := by
          have hne : (alphaRun rest).isEmpty = false := by
            simpa [List.isEmpty_iff] using hB0
          simp [host, altP, pairP, NomResult.andThen, hm1, halpha, hne]
        rw [hcode, hword]

/-- Claim C5 as amended: the named-host parser accepts exactly — one
or more dot-terminated labels of alphanumeric-or-hyphen characters
followed by a final alphabetic-only label (e.g.
`"some-subsite.example.org:8080"` parses to
`Named("some-subsite.example.org")` with remainder `":8080"`), or,
*when the first alternative does not match*, a single leading
alphanumeric-or-hyphen label with nothing more consumed; the result is
the dot-joined sequence of all labels, and every input matching
neither form is rejected with the character-class error, input
untouched. -/
theorem c5_host_named_grammar :
    (∀ s r name : Input, hostWords s = some (r, name) →
      host s = .ok r (Host.HOST name)) ∧
    (∀ s : Input, hostWords s = none → host s = .err s .AlphaNumeric) ∧
    host (("some-subsite.example.org:8080").toList)
      = .ok ((":8080").toList) (Host.HOST (("some-subsite.example.org").toList)) := by
  refine ⟨?_, ?_, by decide⟩
  · intro s r name h
    have hw := host_eq_words s
    rw [h] at hw
    exact hw
  · intro s h
    have hw := host_eq_words s
    rw [h] at hw
    exact hw

/-- Witness for C5's amended theorem at `"localhost:8080"` (the
single-label fallback) and at the spec's dotted example. -/
theorem c5_witness :
    host (("localhost:8080").toList)
      = .ok ((":8080").toList) (Host.HOST (("localhost").toList)) :=
  c5_host_named_grammar.1 (("localhost:8080").toList) ((":8080").toList)
    (("localhost").toList) (by decide)

/-- Witness for C8: the greedy step applied at a concrete input. -/
theorem c8_witness :
    headers (("A: 1\nB: 2\nrest").toList)
      = .ok (("rest").toList)
        [(("A").toList, ("1").toList), (("B").toList, ("2").toList)] :=
  c8_headers_block.2.1 (("A: 1\nB: 2\nrest").toList) (("B: 2\nrest").toList)
    ((("A").toList), (("1").toList)) (("rest").toList)
    [(("B").toList, ("2").toList)] (by decide) (by decide)

end Http
